import Mathlib

/-!
Verification of the code-index core of the Roo-Code repository: the LibSQL
vector-store search path, the ignore-rule resolution of RooIgnoreController
and UnifiedIgnoreController, and the LM Studio / FastEmbed embedders
(batching, retry and validation behavior). Each definition is a shallow
embedding of the corresponding source function; external library behavior
(the libsql backend query, the node ignore matcher, the shared validation
wrapper) is modelled from the specification where marked.
-/

namespace RooCode

/- ===== Vector store: LibSQLVectorStore (libsql-vector-store.ts) ===== -/

/-- Payload stored with each vector record, as written by upsertPoints. -/
structure Payload where
  filePath : String
  codeChunk : String
  startLine : Nat
  endLine : Nat
deriving DecidableEq, Repr

/-- Splits a character list at the path separator, the character-level
equivalent of String.split on a one-character separator. -/
def splitSlashAux : List Char → List Char → List String
  | [], acc => [String.mk acc.reverse]
  | c :: cs, acc =>
    if c == '/' then String.mk acc.reverse :: splitSlashAux cs []
    else splitSlashAux cs (c :: acc)

/-- Embeds the TypeScript idiom used on both the write and the query side:
filePath.split(path.sep).filter(Boolean). -/
def pathSegmentsOf (p : String) : List String :=
  (splitSlashAux p.data []).filter (fun s => !(s == ""))

/-- Character-level JavaScript String.prototype.trim. -/
def strTrim (s : String) : String :=
  String.mk (((s.data.dropWhile Char.isWhitespace).reverse.dropWhile Char.isWhitespace).reverse)

/-- Character-level startsWith check backing startsWith and includes. -/
def strStartsWith (s pat : String) : Bool :=
  pat.data.isPrefixOf s.data

/-- Row shape returned by the backend query: id, optional score, optional
metadata, matching the access patterns of LibSQLVectorStore.search. -/
structure QueryRow where
  id : String
  score : Option ℚ
  metadata : Option Payload
deriving DecidableEq, Repr

/-- Mongo-style membership semantics of the filter
{ pathSegments: { $in: segments } } built by search: an array-valued
field matches when any of its elements is among the listed values.
Modelled from the spec of the backend filter language, since the
@mastra/libsql package is not part of this repository. -/
def matchesSegFilter : Option (List String) → String → Bool
  | none, _ => true
  | some segs, fp => (pathSegmentsOf fp).any (fun s => segs.contains s)

/-- Modelled from the spec: the backend query applies the minimum-score
filter and the metadata filter and caps the result count at topK; it does
not necessarily sort (the spec: backends that do not sort natively must
sort before returning). Stored records carry an id and a payload; the
scoring function stands for the vector similarity of the backend. -/
def libsqlQuery (stored : List (String × Payload)) (scoreOf : String × Payload → ℚ)
    (topK : Nat) (filterSegs : Option (List String)) (minScore : ℚ) : List QueryRow :=
  ((stored.filter (fun r => decide (minScore ≤ scoreOf r) && matchesSegFilter filterSegs r.2.filePath)).map
    (fun r => ⟨r.1, some (scoreOf r), some r.2⟩)).take topK

/-- Search result shape of the vector-store interface. -/
structure VectorStoreSearchResult where
  id : String
  score : ℚ
  payload : Payload
deriving DecidableEq, Repr

/-- One insertion step of the descending-by-score sort performed by
results.sort((a, b) => b.score - a.score). -/
def insertDesc (x : VectorStoreSearchResult) :
    List VectorStoreSearchResult → List VectorStoreSearchResult
  | [] => [x]
  | y :: ys => if y.score ≤ x.score then x :: y :: ys else y :: insertDesc x ys

/-- The sort performed by results.sort((a, b) => b.score - a.score):
a stable sort into non-increasing score order. -/
def sortByScoreDesc : List VectorStoreSearchResult → List VectorStoreSearchResult
  | [] => []
  | x :: xs => insertDesc x (sortByScoreDesc xs)

/-- LibSQLVectorStore.search: resolves defaulted arguments, builds the
segment filter from the directory argument when it is truthy, queries the
backend, keeps rows that carry metadata (score defaulted to 0 by
result.score || 0), and sorts descending by score. -/
def LibSQLVectorStore.search (stored : List (String × Payload))
    (scoreOf : String × Payload → ℚ) (dirPref : Option String)
    (minScore : Option ℚ) (maxResults : Option Nat)
    (defMinScore : ℚ) (defMaxResults : Nat) : List VectorStoreSearchResult :=
  let actualMinScore := minScore.getD defMinScore
  let actualMaxResults := maxResults.getD defMaxResults
  let filterSegs : Option (List String) :=
    match dirPref with
    | some p => if p == "" then none else some (pathSegmentsOf p)
    | none => none
  let rows := libsqlQuery stored scoreOf actualMaxResults filterSegs actualMinScore
  let results := rows.filterMap (fun r => r.metadata.map
    (fun m => (⟨r.id, r.score.getD 0, m⟩ : VectorStoreSearchResult)))
  sortByScoreDesc results

/-- Spec-side predicate for claim C5: a file path lies under a directory
when the directory segments are an initial segment of the file segments. -/
def underDirectory (dir fp : String) : Bool :=
  (pathSegmentsOf dir).isPrefixOf (pathSegmentsOf fp)

/- ===== Ignore resolution: RooIgnoreController.ts ===== -/

/-- Source tag tracked by RooIgnoreController.currentIgnoreSource. -/
inductive IgnoreSource where
  | rooignore
  | gitignore
  | defaults
  | nosource
deriving DecidableEq, Repr

/-- The default pattern list of addDefaultIgnorePatterns. -/
def defaultIgnorePatterns : List String :=
  ["node_modules/", "vendor/", ".git/", ".svn/", ".hg/", "dist/", "build/",
   "out/", "target/", "*.log", ".DS_Store", "Thumbs.db"]

/-- File-system view consumed by RooIgnoreController.loadIgnorePatterns:
existence and readFile outcome for .rooignore and for the root .gitignore. -/
structure RooIgnoreFS where
  rooExists : Bool
  rooRead : Except Unit String
  gitExists : Bool
  gitRead : Except Unit String

/-- Resulting rule state: the active source and the chunks added to the
ignore matcher (file contents and literal self-exclusion patterns). -/
structure IgnoreState where
  source : IgnoreSource
  patterns : List String
deriving DecidableEq, Repr

/-- Secondary half of RooIgnoreController.loadIgnorePatterns: try the root
.gitignore, else install the default patterns. A readFile rejection
escapes to the catch of loadIgnorePatterns, which installs the defaults. -/
def rooGitFallback (fs : RooIgnoreFS) : IgnoreState :=
  if fs.gitExists then
    match fs.gitRead with
    | .error _ => ⟨.defaults, defaultIgnorePatterns⟩
    | .ok c => ⟨.gitignore, [c, ".gitignore"]⟩
  else ⟨.defaults, defaultIgnorePatterns⟩

/-- RooIgnoreController.loadIgnorePatterns: use .rooignore exclusively when
it exists with non-blank content, otherwise fall back; any thrown read
error reaches the catch block, which installs the default patterns. -/
def loadIgnorePatterns (fs : RooIgnoreFS) : IgnoreState :=
  if fs.rooExists then
    match fs.rooRead with
    | .error _ => ⟨.defaults, defaultIgnorePatterns⟩
    | .ok content =>
      if !(strTrim content == "") then ⟨.rooignore, [content, ".rooignore"]⟩
      else rooGitFallback fs
  else rooGitFallback fs

/- ===== Ignore resolution: UnifiedIgnoreController (unnamed part_004) ===== -/

/-- File-system view consumed by UnifiedIgnoreController: the .rooignore at
the root and the readFile outcomes of the .gitignore files found by
findGitignoreFiles, root first. -/
structure UnifiedFS where
  rooExists : Bool
  rooRead : Except Unit String
  gitFiles : List (Except Unit String)

/-- UnifiedIgnoreController.loadGitIgnorePatterns: add the content of every
readable non-blank .gitignore; per-file read errors are logged and skipped;
the literal .gitignore pattern is added only when some content was added. -/
def loadGitIgnorePatternsU (gitFiles : List (Except Unit String)) : List String :=
  let contents := gitFiles.filterMap (fun r =>
    match r with
    | .ok c => if !(strTrim c == "") then some c else none
    | .error _ => none)
  if contents.isEmpty then [] else contents ++ [".gitignore"]

/-- UnifiedIgnoreController.loadIgnorePatterns: .rooignore with non-blank
content wins exclusively; a .rooignore read error is caught locally and
resolution continues with the .gitignore tier; there is no default tier. -/
def loadIgnorePatternsU (fs : UnifiedFS) : List String :=
  if fs.rooExists then
    match fs.rooRead with
    | .ok c =>
      if !(strTrim c == "") then [c, ".rooignore"]
      else loadGitIgnorePatternsU fs.gitFiles
    | .error _ => loadGitIgnorePatternsU fs.gitFiles
  else loadGitIgnorePatternsU fs.gitFiles

/- ===== validateAccess and filterPaths (RooIgnoreController.ts) ===== -/

/-- Embeds path.relative(cwd, target) on normalized absolute segment lists:
strip the common prefix, then one step up per remaining cwd segment. -/
def relSegments : List String → List String → List String
  | [], t => t
  | c :: cs, [] => (c :: cs).map (fun _ => "..")
  | c :: cs, t :: ts =>
    if c == t then relSegments cs ts
    else ((c :: cs).map (fun _ => "..")) ++ (t :: ts)

/-- Modelled from the spec and the repository comment that the ignore
matcher throws for paths outside cwd: the node ignore library rejects an
empty relative path and a path reaching outside the root, and otherwise
answers with the pattern matcher. -/
def ignoresE (ign : List String → Bool) (rel : List String) : Except Unit Bool :=
  if rel.isEmpty || (rel.head? == some "..") then .error ()
  else .ok (ign rel)

/-- RooIgnoreController.validateAccess: resolve the path relative to cwd,
ask the matcher, and on a thrown error allow access (fail open for paths
outside cwd). -/
def validateAccess (ign : List String → Bool) (cwd target : List String) : Bool :=
  match ignoresE ign (relSegments cwd target) with
  | .ok ignored => !ignored
  | .error _ => true

/-- The paths.map step of filterPaths under exception semantics: pair each
path with its access verdict, aborting at the first thrown error. -/
def mapAccess (va : String → Except Unit Bool) : List String → Except Unit (List (String × Bool))
  | [] => .ok []
  | p :: ps =>
    match va p with
    | .error e => .error e
    | .ok b =>
      match mapAccess va ps with
      | .error e => .error e
      | .ok l => .ok ((p, b) :: l)

/-- RooIgnoreController.filterPaths: map each path through validateAccess
and keep the allowed ones; if anything inside the try block throws, return
the empty list (fail closed). The fallible argument stands for the
per-path access check as run inside the try block. -/
def filterPaths (va : String → Except Unit Bool) (paths : List String) : List String :=
  match mapAccess va paths with
  | .ok l => (l.filter (fun x => x.2)).map (fun x => x.1)
  | .error _ => []

/- ===== Embedders: shared token estimate ===== -/

/-- Embeds Math.ceil(text.length / 4), the cheap token estimate used by
every embedder backend. -/
def itemTokens (t : String) : Nat := (t.length + 3) / 4

/-- Sum of token estimates of a batch. -/
def tokenSum (b : List String) : Nat := (b.map itemTokens).sum

/- ===== LM Studio embedder (lmstudio.ts and unnamed part_006) ===== -/

/-- Result of one successful embeddings request: the embedding vectors and
the usage totals read off the response. -/
structure BatchOut where
  embeddings : List (List ℚ)
  promptTokens : Nat
  totalTokens : Nat
deriving DecidableEq, Repr

/-- Error value observed by the retry loop: the optional HTTP status of a
failed request. -/
structure HttpErr where
  status : Option Nat
deriving DecidableEq, Repr

/-- Error taxonomy of the two createEmbeddings copies: a raw request error,
the two exhaustion errors (plain message in the named copy, i18n message in
the unnamed copy), and the wrapper thrown by the named copy around a failed
batch. -/
inductive EmbedError where
  | http : HttpErr → EmbedError
  | maxAttempts : Nat → EmbedError
  | maxAttemptsT : Nat → EmbedError
  | batchFailed : Nat → EmbedError → EmbedError
deriving DecidableEq, Repr

/-- Decidable equality for Except values, used to evaluate run outcomes on
concrete inputs. -/
instance {ε α : Type} [DecidableEq ε] [DecidableEq α] : DecidableEq (Except ε α) := fun a b =>
  match a, b with
  | .ok x, .ok y =>
    match decEq x y with
    | isTrue h => isTrue (by rw [h])
    | isFalse h => isFalse (by intro hc; cases hc; exact h rfl)
  | .error x, .error y =>
    match decEq x y with
    | isTrue h => isTrue (by rw [h])
    | isFalse h => isFalse (by intro hc; cases hc; exact h rfl)
  | .ok _, .error _ => isFalse (by intro hc; cases hc)
  | .error _, .ok _ => isFalse (by intro hc; cases hc)

/-- Observable outcome of one run of the retry helper: the result, the
number of requests issued, and the list of slept backoff delays. -/
structure RetryRun where
  result : Except EmbedError BatchOut
  attempts : Nat
  delays : List Nat
deriving DecidableEq, Repr

/-- Retry loop of the named copy (lmstudio.ts _embedBatchWithRetries),
written over the remaining attempt budget: issue the request; on a 429
with attempts left, sleep delayInit * 2 ^ attempt and retry; any other
error is rethrown at once; an exhausted budget raises the plain
max-attempts error. -/
def embedRetryGo1 (f : Nat → Except HttpErr BatchOut) (mR dI : Nat) :
    Nat → Nat → RetryRun
  | 0, attempt => ⟨.error (.maxAttempts mR), attempt, []⟩
  | remaining + 1, attempt =>
    match f attempt with
    | .ok r => ⟨.ok r, attempt + 1, []⟩
    | .error e =>
      if e.status == some 429 && decide (attempt < mR - 1) then
        let o := embedRetryGo1 f mR dI remaining (attempt + 1)
        ⟨o.result, o.attempts, dI * 2 ^ attempt :: o.delays⟩
      else ⟨.error (.http e), attempt + 1, []⟩

/-- Named-copy _embedBatchWithRetries with its full attempt budget. -/
def embedBatchWithRetries1 (f : Nat → Except HttpErr BatchOut) (mR dI : Nat) : RetryRun :=
  embedRetryGo1 f mR dI mR 0

/-- Retry loop of the unnamed copy (part_006): identical control flow, but
the exhaustion error carries the i18n message. -/
def embedRetryGo2 (f : Nat → Except HttpErr BatchOut) (mR dI : Nat) :
    Nat → Nat → RetryRun
  | 0, attempt => ⟨.error (.maxAttemptsT mR), attempt, []⟩
  | remaining + 1, attempt =>
    match f attempt with
    | .ok r => ⟨.ok r, attempt + 1, []⟩
    | .error e =>
      if e.status == some 429 && decide (attempt < mR - 1) then
        let o := embedRetryGo2 f mR dI remaining (attempt + 1)
        ⟨o.result, o.attempts, dI * 2 ^ attempt :: o.delays⟩
      else ⟨.error (.http e), attempt + 1, []⟩

/-- Unnamed-copy _embedBatchWithRetries with its full attempt budget. -/
def embedBatchWithRetries2 (f : Nat → Except HttpErr BatchOut) (mR dI : Nat) : RetryRun :=
  embedRetryGo2 f mR dI mR 0

/-- Inner for loop of createEmbeddings (identical in both copies): walk the
remaining texts, skip items over the per-item ceiling, add fitting items to
the current batch, and stop at the first non-oversized item that does not
fit the batch budget. Returns the batch and what stays in remainingTexts
after the processed indices are spliced out. -/
def collectBatch (maxItem maxBatch : Nat) : List String → Nat → List String × List String
  | [], _ => ([], [])
  | t :: ts, acc =>
    let k := itemTokens t
    if maxItem < k then collectBatch maxItem maxBatch ts acc
    else if acc + k ≤ maxBatch then
      let p := collectBatch maxItem maxBatch ts (acc + k)
      (t :: p.1, p.2)
    else ([], t :: ts)

/-- Batch decomposition produced by the while loop of createEmbeddings,
with fuel standing in for the (unproved in source) progress of the loop;
none means the fuel ran out before remainingTexts drained. -/
def batchPlan (maxItem maxBatch : Nat) : Nat → List String → Option (List (List String))
  | _, [] => some []
  | 0, _ :: _ => none
  | fuel + 1, t :: ts =>
    let p := collectBatch maxItem maxBatch (t :: ts) 0
    match batchPlan maxItem maxBatch fuel p.2 with
    | some rest => some (if p.1.isEmpty then rest else p.1 :: rest)
    | none => none

/-- While loop of the named-copy createEmbeddings: build a batch, embed it
through the retry helper, accumulate embeddings and usage; a failed batch
is caught and rethrown wrapped with the batch description. -/
def createLoop1 (embedB : List String → Except EmbedError BatchOut)
    (maxItem maxBatch : Nat) : Nat → List String → BatchOut → Option (Except EmbedError BatchOut)
  | _, [], acc => some (.ok acc)
  | 0, _ :: _, _ => none
  | fuel + 1, t :: ts, acc =>
    let p := collectBatch maxItem maxBatch (t :: ts) 0
    if p.1.isEmpty then createLoop1 embedB maxItem maxBatch fuel p.2 acc
    else
      match embedB p.1 with
      | .ok out => createLoop1 embedB maxItem maxBatch fuel p.2
          ⟨acc.embeddings ++ out.embeddings, acc.promptTokens + out.promptTokens,
           acc.totalTokens + out.totalTokens⟩
      | .error e => some (.error (.batchFailed p.1.length e))

/-- While loop of the unnamed-copy createEmbeddings: the same control flow,
but a failed batch propagates its error unwrapped. -/
def createLoop2 (embedB : List String → Except EmbedError BatchOut)
    (maxItem maxBatch : Nat) : Nat → List String → BatchOut → Option (Except EmbedError BatchOut)
  | _, [], acc => some (.ok acc)
  | 0, _ :: _, _ => none
  | fuel + 1, t :: ts, acc =>
    let p := collectBatch maxItem maxBatch (t :: ts) 0
    if p.1.isEmpty then createLoop2 embedB maxItem maxBatch fuel p.2 acc
    else
      match embedB p.1 with
      | .ok out => createLoop2 embedB maxItem maxBatch fuel p.2
          ⟨acc.embeddings ++ out.embeddings, acc.promptTokens + out.promptTokens,
           acc.totalTokens + out.totalTokens⟩
      | .error e => some (.error e)

/-- Named-copy createEmbeddings over a per-batch per-attempt response
oracle: each batch goes through the named retry helper. -/
def createEmbeddings1 (responses : List String → Nat → Except HttpErr BatchOut)
    (mR dI maxItem maxBatch : Nat) (texts : List String) : Option (Except EmbedError BatchOut) :=
  createLoop1 (fun b => (embedBatchWithRetries1 (responses b) mR dI).result)
    maxItem maxBatch texts.length texts ⟨[], 0, 0⟩

/-- Unnamed-copy createEmbeddings over the same oracle shape, through the
unnamed retry helper. -/
def createEmbeddings2 (responses : List String → Nat → Except HttpErr BatchOut)
    (mR dI maxItem maxBatch : Nat) (texts : List String) : Option (Except EmbedError BatchOut) :=
  createLoop2 (fun b => (embedBatchWithRetries2 (responses b) mR dI).result)
    maxItem maxBatch texts.length texts ⟨[], 0, 0⟩

/- ===== LM Studio validateConfiguration (unnamed part_006) ===== -/

/-- Error value as inspected by the validation handlers: optional HTTP
status, optional error code, message text. -/
structure ErrInfo where
  status : Option Nat
  code : Option String
  message : String
deriving DecidableEq, Repr

/-- User-actionable validation categories produced by the classification. -/
inductive ValidationError where
  | invalidResponse
  | serviceNotRunning
  | modelNotFound
  | hostNotFound
  | generic
  | modelNotSupported
  | invalidResponseFormat
  | invalidEmbeddingFormat
deriving DecidableEq, Repr

/-- Result shape of validateConfiguration. -/
structure ValidationResult where
  valid : Bool
  error : Option ValidationError
deriving DecidableEq, Repr

/-- Substring test backing the message.includes(...) checks. -/
def strContains (s pat : String) : Bool :=
  (List.range (s.length + 1)).any (fun i => strStartsWith (s.drop i) pat)

/-- Outcome of the minimal probe request issued by validateConfiguration. -/
inductive ProbeOutcome where
  | success (data : List (List ℚ))
  | failure (e : ErrInfo)

/-- Inner catch of CodeIndexLmStudioEmbedder.validateConfiguration:
ECONNREFUSED means the service is not running, a 404 means the model was
not found, anything else is rethrown to the wrapper. -/
def lmstudioProbeClassify (e : ErrInfo) : Except ErrInfo ValidationResult :=
  if strContains e.message "ECONNREFUSED" || e.code == some "ECONNREFUSED" then
    .ok ⟨false, some .serviceNotRunning⟩
  else if e.status == some 404 || strContains e.message "404" then
    .ok ⟨false, some .modelNotFound⟩
  else .error e

/-- beforeStandardHandling hook passed by the LM Studio embedder: fetch
failures and ECONNREFUSED mean the service is unreachable, ENOTFOUND means
the host is unresolvable, anything else is left to standard handling. -/
def lmstudioBeforeStandard (e : ErrInfo) : Option ValidationResult :=
  if strContains e.message "fetch failed" || e.code == some "ECONNREFUSED"
      || strContains e.message "ECONNREFUSED" then
    some ⟨false, some .serviceNotRunning⟩
  else if e.code == some "ENOTFOUND" || strContains e.message "ENOTFOUND" then
    some ⟨false, some .hostNotFound⟩
  else none

/-- Modelled from the spec: withValidationErrorHandling (defined in
shared/validation-helpers, which is not under src/) runs the operation,
and on a thrown error consults the beforeStandardHandling hook first and
otherwise classifies the failure as a generic configuration error. -/
def withValidationErrorHandling (op : Except ErrInfo ValidationResult)
    (before : ErrInfo → Option ValidationResult) : ValidationResult :=
  match op with
  | .ok r => r
  | .error e =>
    match before e with
    | some r => r
    | none => ⟨false, some .generic⟩

/-- CodeIndexLmStudioEmbedder.validateConfiguration: a probe returning at
least one embedding is valid, an empty data array is an invalid response,
and failures go through the two-stage classification. -/
def validateConfiguration (probe : ProbeOutcome) : ValidationResult :=
  withValidationErrorHandling
    (match probe with
     | .success data =>
       if data.isEmpty then .ok ⟨false, some .invalidResponse⟩ else .ok ⟨true, none⟩
     | .failure e => lmstudioProbeClassify e)
    lmstudioBeforeStandard

/-- beforeStandardHandling hook passed by the FastEmbed embedder (unnamed
part_008): only failures whose message marks the model as not found or not
supported are classified; everything else is left to standard handling. -/
def fastEmbedBeforeStandard (e : ErrInfo) : Option ValidationResult :=
  if strContains e.message "model not found"
      || strContains e.message "Model not supported" then
    some ⟨false, some .modelNotSupported⟩
  else none

/-- FastEmbedEmbedder.validateConfiguration (unnamed part_008): an
unavailable model is reported as not supported before any probe; a probe
must return a non-empty array whose first embedding is non-empty to be
valid; a thrown probe error is re-raised (after telemetry) into the shared
wrapper, whose FastEmbed hook recognizes only model-not-found messages, so
every other failure becomes a generic configuration error. -/
def fastEmbedValidateConfiguration (modelAvailable : Bool) (probe : ProbeOutcome) :
    ValidationResult :=
  withValidationErrorHandling
    (if !modelAvailable then .ok ⟨false, some .modelNotSupported⟩
     else
       match probe with
       | .success data =>
         match data with
         | [] => .ok ⟨false, some .invalidResponseFormat⟩
         | fst :: _ =>
           if fst.isEmpty then .ok ⟨false, some .invalidEmbeddingFormat⟩
           else .ok ⟨true, none⟩
       | .failure e => .error e)
    fastEmbedBeforeStandard

/- ===== FastEmbed embedder (unnamed part_008) ===== -/

/-- Error taxonomy of FastEmbedEmbedder.createEmbeddings. -/
inductive FastEmbedError where
  | modelNotSupported
  | noValidTexts
  | invalidResponseFormat
  | embeddingFailed : FastEmbedError → FastEmbedError
deriving DecidableEq, Repr

/-- Query-prefix pass of FastEmbedEmbedder.createEmbeddings: a truthy model
prefix is prepended unless the text already starts with it or the
prefixed text would exceed the per-item ceiling. -/
def processTexts (queryPref : Option String) (maxItem : Nat) (texts : List String) : List String :=
  match queryPref with
  | none => texts
  | some qp =>
    if qp == "" then texts
    else texts.map (fun text =>
      if strStartsWith text qp then text
      else
        let prefixed := qp ++ text
        if maxItem < itemTokens prefixed then text else prefixed)

/-- Batch loop of FastEmbedEmbedder.createEmbeddings: slice validTexts into
chunks of the per-call cap, call doEmbed on each, and demand a non-empty
array back; fuel stands in for the progress of the for loop. -/
def fastEmbedBatches (doEmbed : List String → Except FastEmbedError (List (List ℚ)))
    (n : Nat) : Nat → List String → Option (Except FastEmbedError (List (List ℚ)))
  | _, [] => some (.ok [])
  | 0, _ :: _ => none
  | fuel + 1, t :: ts =>
    match doEmbed ((t :: ts).take n) with
    | .error e => some (.error e)
    | .ok res =>
      if res.isEmpty then some (.error .invalidResponseFormat)
      else
        match fastEmbedBatches doEmbed n fuel ((t :: ts).drop n) with
        | some (.ok more) => some (.ok (res ++ more))
        | some (.error e) => some (.error e)
        | none => none

/-- FastEmbedEmbedder.createEmbeddings: apply the query prefix, drop
oversized texts with a warning, throw when nothing valid remains, embed in
chunks of maxEmbeddingsPerCall (defaulted to 256 when falsy), estimate the
usage from the text lengths, and wrap any thrown error into the
embedding-failed error of the outer catch. -/
def fastEmbedCreate (doEmbed : List String → Except FastEmbedError (List (List ℚ)))
    (maxPerCall maxItem : Nat) (queryPref : Option String) (texts : List String) :
    Option (Except FastEmbedError BatchOut) :=
  let processed := processTexts queryPref maxItem texts
  let validTexts := processed.filter (fun t => !(decide (maxItem < itemTokens t)))
  if validTexts.isEmpty then some (.error (.embeddingFailed .noValidTexts))
  else
    let n := if maxPerCall == 0 then 256 else maxPerCall
    match fastEmbedBatches doEmbed n validTexts.length validTexts with
    | some (.ok allEmbeddings) =>
      let est := tokenSum validTexts
      some (.ok ⟨allEmbeddings, est, est⟩)
    | some (.error e) => some (.error (.embeddingFailed e))
    | none => none

/- ===== Helper lemmas: descending sort ===== -/

theorem mem_insertDesc {x y : VectorStoreSearchResult} :
    ∀ l, y ∈ insertDesc x l → y = x ∨ y ∈ l := by
  intro l
  induction l with
  | nil => intro h; simpa [insertDesc] using h
  | cons z zs ih =>
    intro h
    by_cases hz : z.score ≤ x.score
    · simp [insertDesc, hz] at h
      rcases h with h | h | h
      · exact Or.inl h
      · exact Or.inr (by simp [h])
      · exact Or.inr (by simp [h])
    · simp [insertDesc, hz] at h
      rcases h with h | h
      · exact Or.inr (by simp [h])
      · rcases ih h with h | h
        · exact Or.inl h
        · exact Or.inr (by simp [h])

theorem length_insertDesc (x : VectorStoreSearchResult) :
    ∀ l, (insertDesc x l).length = l.length + 1 := by
  intro l
  induction l with
  | nil => simp [insertDesc]
  | cons z zs ih =>
    by_cases hz : z.score ≤ x.score
    · simp [insertDesc, hz]
    · simp [insertDesc, hz, ih]

theorem headScore_insertDesc (x : VectorStoreSearchResult) (l : List VectorStoreSearchResult) :
    ∀ b ∈ (insertDesc x l).head?, b = x ∨ b ∈ l.head? := by
  cases l with
  | nil => intro b hb; simp [insertDesc] at hb; simp [hb]
  | cons z zs =>
    intro b hb
    by_cases hz : z.score ≤ x.score
    · simp [insertDesc, hz] at hb; simp [hb]
    · simp [insertDesc, hz] at hb; simp [hb]

theorem chain_insertDesc (x : VectorStoreSearchResult) :
    ∀ l, List.Chain' (fun a b => b.score ≤ a.score) l →
      List.Chain' (fun a b => b.score ≤ a.score) (insertDesc x l) := by
  intro l
  induction l with
  | nil => intro _; simp [insertDesc]
  | cons z zs ih =>
    intro h
    rw [List.chain'_cons'] at h
    by_cases hz : z.score ≤ x.score
    · show List.Chain' _ (if z.score ≤ x.score then x :: z :: zs else _)
      rw [if_pos hz, List.chain'_cons']
      refine ⟨?_, List.chain'_cons'.mpr h⟩
      intro b hb
      simp at hb
      simpa [hb] using hz
    · show List.Chain' _ (if z.score ≤ x.score then _ else z :: insertDesc x zs)
      rw [if_neg hz, List.chain'_cons']
      refine ⟨?_, ih h.2⟩
      intro b hb
      rcases headScore_insertDesc x zs b hb with hb' | hb'
      · subst hb'
        exact le_of_lt (lt_of_not_le hz)
      · exact h.1 b hb'

theorem chain_sortByScoreDesc :
    ∀ l, List.Chain' (fun a b => b.score ≤ a.score) (sortByScoreDesc l) := by
  intro l
  induction l with
  | nil => simp [sortByScoreDesc]
  | cons x xs ih => exact chain_insertDesc x _ ih

theorem mem_sortByScoreDesc {y : VectorStoreSearchResult} :
    ∀ l, y ∈ sortByScoreDesc l → y ∈ l := by
  intro l
  induction l with
  | nil => intro h; simp [sortByScoreDesc] at h
  | cons x xs ih =>
    intro h
    rcases mem_insertDesc _ h with h' | h'
    · simp [h']
    · simp [ih h']

theorem length_sortByScoreDesc :
    ∀ l, (sortByScoreDesc l).length = l.length := by
  intro l
  induction l with
  | nil => rfl
  | cons x xs ih => simp [sortByScoreDesc, length_insertDesc, ih]

/- ===== Helper lemmas: the search pipeline ===== -/

theorem mem_libsqlQuery {stored : List (String × Payload)} {scoreOf : String × Payload → ℚ}
    {topK : Nat} {fl : Option (List String)} {m : ℚ} {r : QueryRow}
    (h : r ∈ libsqlQuery stored scoreOf topK fl m) :
    ∃ s ∈ stored, r = ⟨s.1, some (scoreOf s), some s.2⟩ ∧ m ≤ scoreOf s := by
  unfold libsqlQuery at h
  have h' := List.take_subset _ _ h
  rcases List.mem_map.mp h' with ⟨s, hs, rfl⟩
  rcases List.mem_filter.mp hs with ⟨hmem, hcond⟩
  simp only [Bool.and_eq_true, decide_eq_true_eq] at hcond
  exact ⟨s, hmem, rfl, hcond.1⟩

theorem length_libsqlQuery (stored : List (String × Payload)) (scoreOf : String × Payload → ℚ)
    (topK : Nat) (fl : Option (List String)) (m : ℚ) :
    (libsqlQuery stored scoreOf topK fl m).length ≤ topK := by
  unfold libsqlQuery
  exact List.length_take_le _ _

/- ===== Claim theorems: C1 and C5 ===== -/

/-- C1 (amended): every result of LibSQLVectorStore.search has a score at
least the effective minScore, the list is sorted in non-increasing
(descending, ties allowed) score order, and at most the effective
maxResults results are returned. The original strictly-descending reading
fails on equal scores, see the counterexample. -/
theorem search_minScore_sorted_capped (stored : List (String × Payload))
    (scoreOf : String × Payload → ℚ) (dirPref : Option String)
    (minScore : Option ℚ) (maxResults : Option Nat) (defMin : ℚ) (defMax : Nat) :
    (∀ r ∈ LibSQLVectorStore.search stored scoreOf dirPref minScore maxResults defMin defMax,
        minScore.getD defMin ≤ r.score) ∧
    List.Chain' (fun a b => b.score ≤ a.score)
      (LibSQLVectorStore.search stored scoreOf dirPref minScore maxResults defMin defMax) ∧
    (LibSQLVectorStore.search stored scoreOf dirPref minScore maxResults defMin defMax).length
      ≤ maxResults.getD defMax := by
  unfold LibSQLVectorStore.search
  refine ⟨?_, chain_sortByScoreDesc _, ?_⟩
  · intro r hr
    have hr' := mem_sortByScoreDesc _ hr
    rcases List.mem_filterMap.mp hr' with ⟨q, hq, hqr⟩
    rcases mem_libsqlQuery hq with ⟨s, _, rfl, hms⟩
    simp only [Option.map_some] at hqr
    cases hqr
    simpa using hms
  · rw [length_sortByScoreDesc]
    exact le_trans (List.length_filterMap_le _ _) (length_libsqlQuery _ _ _ _ _)

/-- C1 counterexample: with two stored records of equal similarity score,
search returns a list that is not strictly descending by score (the claim
states strictly descending sorting). -/
theorem search_strictness_counterexample :
    ¬ List.Chain' (fun a b => b.score < a.score)
      (LibSQLVectorStore.search
        [("a", ⟨"f.ts", "x", 1, 2⟩), ("b", ⟨"g.ts", "y", 3, 4⟩)]
        (fun _ => (1 : ℚ)) none (some 0) (some 10) 0 50) := by
  have h : LibSQLVectorStore.search
      [("a", ⟨"f.ts", "x", 1, 2⟩), ("b", ⟨"g.ts", "y", 3, 4⟩)]
      (fun _ => (1 : ℚ)) none (some 0) (some 10) 0 50
      = [⟨"a", 1, ⟨"f.ts", "x", 1, 2⟩⟩, ⟨"b", 1, ⟨"g.ts", "y", 3, 4⟩⟩] := by decide
  rw [h]
  simp [List.chain'_cons]

/-- C5 (code bug evaluation): with the directory filter "src", search
returns a record whose file path "lib/src/x.ts" does not lie under the
directory "src": the Mongo-style $in filter matches on any shared path
segment instead of the documented starts-with check. -/
theorem search_dir_filter_eval :
    LibSQLVectorStore.search
        [("id1", ⟨"lib/src/x.ts", "chunk", 1, 2⟩)]
        (fun _ => (1 : ℚ)) (some "src") (some 0) (some 10) 0 50
      = [⟨"id1", (1 : ℚ), ⟨"lib/src/x.ts", "chunk", 1, 2⟩⟩] ∧
    underDirectory "src" "lib/src/x.ts" = false := by
  constructor
  · decide
  · decide

/- ===== Claim theorems: C2 and C7 ===== -/

/-- C2 (amended): ignore-rule resolution uses exactly one source, primary
first. In RooIgnoreController a non-blank .rooignore wins exclusively, an
existing readable .gitignore is the second tier, and the built-in defaults
are the third tier. In UnifiedIgnoreController a non-blank .rooignore wins
exclusively and otherwise the .gitignore tier is used, but there is no
default tier: with no usable .gitignore no patterns are active. -/
theorem ignore_precedence (fs : RooIgnoreFS) (fsu : UnifiedFS) (c g : String) :
    (fs.rooExists = true → fs.rooRead = .ok c → ¬(strTrim c = "") →
      loadIgnorePatterns fs = ⟨.rooignore, [c, ".rooignore"]⟩) ∧
    ((fs.rooExists = false ∨ (fs.rooRead = .ok c ∧ strTrim c = "")) →
      fs.gitExists = true → fs.gitRead = .ok g →
      loadIgnorePatterns fs = ⟨.gitignore, [g, ".gitignore"]⟩) ∧
    ((fs.rooExists = false ∨ (fs.rooRead = .ok c ∧ strTrim c = "")) →
      fs.gitExists = false →
      loadIgnorePatterns fs = ⟨.defaults, defaultIgnorePatterns⟩) ∧
    (fsu.rooExists = true → fsu.rooRead = .ok c → ¬(strTrim c = "") →
      loadIgnorePatternsU fsu = [c, ".rooignore"]) ∧
    ((fsu.rooExists = false ∨ (fsu.rooRead = .ok c ∧ strTrim c = "")) →
      loadIgnorePatternsU fsu = loadGitIgnorePatternsU fsu.gitFiles) := by
  refine ⟨?_, ?_, ?_, ?_, ?_⟩
  · intro hroo hread htrim
    simp [loadIgnorePatterns, hroo, hread, htrim]
  · intro hfb hgit hread
    rcases hfb with hroo | ⟨hok, htrim⟩
    · simp [loadIgnorePatterns, hroo, rooGitFallback, hgit, hread]
    · simp [loadIgnorePatterns, hok, htrim, rooGitFallback, hgit, hread]
  · intro hfb hgit
    rcases hfb with hroo | ⟨hok, htrim⟩
    · simp [loadIgnorePatterns, hroo, rooGitFallback, hgit]
    · simp [loadIgnorePatterns, hok, htrim, rooGitFallback, hgit]
  · intro hroo hread htrim
    simp [loadIgnorePatternsU, hroo, hread, htrim]
  · intro hfb
    rcases hfb with hroo | ⟨hok, htrim⟩
    · simp [loadIgnorePatternsU, hroo]
    · simp [loadIgnorePatternsU, hok, htrim]

/-- C2 witness: the three RooIgnoreController tiers and the exclusive
primary tier of UnifiedIgnoreController at concrete file systems. -/
theorem ignore_precedence_witness :
    loadIgnorePatterns ⟨true, .ok "secrets/", true, .ok "node_modules/"⟩
      = ⟨.rooignore, ["secrets/", ".rooignore"]⟩ ∧
    loadIgnorePatterns ⟨true, .ok "  ", true, .ok "node_modules/"⟩
      = ⟨.gitignore, ["node_modules/", ".gitignore"]⟩ ∧
    loadIgnorePatterns ⟨false, .ok "", false, .ok ""⟩
      = ⟨.defaults, defaultIgnorePatterns⟩ ∧
    loadIgnorePatternsU ⟨true, .ok "secrets/", [.ok "node_modules/"]⟩
      = ["secrets/", ".rooignore"] := by
  refine ⟨?_, ?_, ?_, ?_⟩
  · exact (ignore_precedence ⟨true, .ok "secrets/", true, .ok "node_modules/"⟩
      ⟨true, .ok "x", []⟩ "secrets/" "node_modules/").1 rfl rfl (by decide)
  · exact (ignore_precedence ⟨true, .ok "  ", true, .ok "node_modules/"⟩
      ⟨true, .ok "x", []⟩ "  " "node_modules/").2.1 (Or.inr ⟨rfl, by decide⟩) rfl rfl
  · exact (ignore_precedence ⟨false, .ok "", false, .ok ""⟩
      ⟨true, .ok "x", []⟩ "" "").2.2.1 (Or.inl rfl) rfl
  · exact (ignore_precedence ⟨false, .ok "", false, .ok ""⟩
      ⟨true, .ok "secrets/", [.ok "node_modules/"]⟩ "secrets/" "").2.2.2.1
      rfl rfl (by decide)

/-- C2 counterexample: with neither ignore file present,
UnifiedIgnoreController activates no patterns at all, not the built-in
default pattern set the claim requires for the third tier. -/
theorem unified_default_tier_counterexample :
    loadIgnorePatternsU ⟨false, .ok "", []⟩ = [] ∧ defaultIgnorePatterns ≠ [] := by
  refine ⟨by decide, by decide⟩

/-- C7 (amended): a read error never fails resolution, but the tier it
falls to differs between the controllers. In RooIgnoreController any read
error (primary or secondary) lands in the catch block and installs the
built-in defaults, skipping the secondary tier even when a readable
.gitignore exists; in UnifiedIgnoreController a primary read error is
caught locally and resolution continues with the secondary tier, and a
read error on one secondary file merely skips that file. -/
theorem ignore_read_error_fallback (fs : RooIgnoreFS) (fsu : UnifiedFS) (c : String)
    (rest : List (Except Unit String)) :
    (fs.rooExists = true → fs.rooRead = .error () →
      loadIgnorePatterns fs = ⟨.defaults, defaultIgnorePatterns⟩) ∧
    ((fs.rooExists = false ∨ (fs.rooRead = .ok c ∧ strTrim c = "")) →
      fs.gitExists = true → fs.gitRead = .error () →
      loadIgnorePatterns fs = ⟨.defaults, defaultIgnorePatterns⟩) ∧
    (fsu.rooExists = true → fsu.rooRead = .error () →
      loadIgnorePatternsU fsu = loadGitIgnorePatternsU fsu.gitFiles) ∧
    (loadGitIgnorePatternsU (.error () :: rest) = loadGitIgnorePatternsU rest) := by
  refine ⟨?_, ?_, ?_, ?_⟩
  · intro hroo hread
    simp [loadIgnorePatterns, hroo, hread]
  · intro hfb hgit hread
    rcases hfb with hroo | ⟨hok, htrim⟩
    · simp [loadIgnorePatterns, hroo, rooGitFallback, hgit, hread]
    · simp [loadIgnorePatterns, hok, htrim, rooGitFallback, hgit, hread]
  · intro hroo hread
    simp [loadIgnorePatternsU, hroo, hread]
  · simp [loadGitIgnorePatternsU]

/-- C7 witness: the four read-error behaviors at concrete file systems. -/
theorem ignore_read_error_fallback_witness :
    loadIgnorePatterns ⟨true, .error (), false, .ok ""⟩
      = ⟨.defaults, defaultIgnorePatterns⟩ ∧
    loadIgnorePatterns ⟨false, .ok "", true, .error ()⟩
      = ⟨.defaults, defaultIgnorePatterns⟩ ∧
    loadIgnorePatternsU ⟨true, .error (), [.ok "a/"]⟩
      = loadGitIgnorePatternsU [.ok "a/"] ∧
    loadGitIgnorePatternsU [.error (), .ok "a/"] = loadGitIgnorePatternsU [.ok "a/"] := by
  refine ⟨?_, ?_, ?_, ?_⟩
  · exact (ignore_read_error_fallback ⟨true, .error (), false, .ok ""⟩
      ⟨true, .ok "x", []⟩ "" []).1 rfl rfl
  · exact (ignore_read_error_fallback ⟨false, .ok "", true, .error ()⟩
      ⟨true, .ok "x", []⟩ "" []).2.1 (Or.inl rfl) rfl rfl
  · exact (ignore_read_error_fallback ⟨false, .ok "", true, .error ()⟩
      ⟨true, .error (), [.ok "a/"]⟩ "" []).2.2.1 rfl rfl
  · exact (ignore_read_error_fallback ⟨false, .ok "", true, .error ()⟩
      ⟨true, .error (), [.ok "a/"]⟩ "" [.ok "a/"]).2.2.2

/-- C7 counterexample: a read error on .rooignore in RooIgnoreController
activates the built-in defaults even though a readable .gitignore with
patterns exists, so the secondary tier is not the one left active. -/
theorem roo_read_error_counterexample :
    loadIgnorePatterns ⟨true, .error (), true, .ok "node_modules/"⟩
      = ⟨.defaults, defaultIgnorePatterns⟩ ∧
    (loadIgnorePatterns ⟨true, .error (), true, .ok "node_modules/"⟩).source
      ≠ IgnoreSource.gitignore := by
  refine ⟨by decide, by decide⟩

/- ===== Helper lemmas and claim theorems: C8 ===== -/

theorem relSegments_head_of_not_prefix :
    ∀ (cwd target : List String), ¬ cwd <+: target →
      (relSegments cwd target).head? = some ".." := by
  intro cwd
  induction cwd with
  | nil => intro target h; exact absurd List.nil_prefix h
  | cons c cs ih =>
    intro target h
    cases target with
    | nil => simp [relSegments]
    | cons t ts =>
      by_cases hct : c = t
      · have hcs : ¬ cs <+: ts := by
          intro hp
          exact h (List.cons_prefix_cons.mpr ⟨hct, hp⟩)
        simpa [relSegments, hct] using ih ts hcs
      · simp [relSegments, hct]

theorem mapAccess_error {va : String → Except Unit Bool} :
    ∀ (paths : List String) (p : String), p ∈ paths → va p = .error () →
      mapAccess va paths = .error () := by
  intro paths
  induction paths with
  | nil => intro p hp; simp at hp
  | cons q rest ih =>
    intro p hp herr
    rcases List.mem_cons.mp hp with h | h
    · subst h
      simp [mapAccess, herr]
    · cases hq : va q with
      | error e => simp [mapAccess, hq]
      | ok b => simp [mapAccess, hq, ih p h herr]

/-- C8: validateAccess fails open, returning true for every path outside
the workspace root (the ignore matcher throws on such paths and the catch
allows access), while filterPaths fails closed, returning the empty list
when the per-path check throws inside its try block. -/
theorem access_fail_open_filter_fail_closed (ign : List String → Bool)
    (cwd target : List String) (va : String → Except Unit Bool)
    (paths : List String) (p : String) :
    (¬ cwd <+: target → validateAccess ign cwd target = true) ∧
    (p ∈ paths → va p = .error () → filterPaths va paths = []) := by
  constructor
  · intro h
    have hh := relSegments_head_of_not_prefix cwd target h
    simp [validateAccess, ignoresE, hh]
  · intro hp herr
    simp [filterPaths, mapAccess_error paths p hp herr]

/-- C8 witness: a path outside the root is allowed, and one throwing path
empties the filtered list. -/
theorem access_fail_open_filter_fail_closed_witness :
    validateAccess (fun _ => true) ["home", "user"] ["etc", "passwd"] = true ∧
    filterPaths (fun q => if q == "bad" then .error () else .ok true) ["a", "bad"] = [] := by
  constructor
  · exact (access_fail_open_filter_fail_closed (fun _ => true) ["home", "user"]
      ["etc", "passwd"] (fun _ => .ok true) [] "x").1 (by decide)
  · exact (access_fail_open_filter_fail_closed (fun _ => true) [] []
      (fun q => if q == "bad" then .error () else .ok true) ["a", "bad"] "bad").2
      (by decide) (by decide)

/- ===== Helper lemmas: the retry helpers ===== -/

theorem embedRetryGo1_attempts_le (f : Nat → Except HttpErr BatchOut) (mR dI : Nat) :
    ∀ (rem att : Nat), (embedRetryGo1 f mR dI rem att).attempts ≤ att + rem := by
  intro rem
  induction rem with
  | zero => intro att; simp [embedRetryGo1]
  | succ rem ih =>
    intro att
    cases hf : f att with
    | ok r => simp [embedRetryGo1, hf]
    | error e =>
      by_cases hc : (e.status == some 429 && decide (att < mR - 1)) = true
      · have := ih (att + 1)
        simp [embedRetryGo1, hf, hc]
        omega
      · rw [Bool.not_eq_true] at hc
        simp [embedRetryGo1, hf, hc]

theorem embedRetryGo2_attempts_le (f : Nat → Except HttpErr BatchOut) (mR dI : Nat) :
    ∀ (rem att : Nat), (embedRetryGo2 f mR dI rem att).attempts ≤ att + rem := by
  intro rem
  induction rem with
  | zero => intro att; simp [embedRetryGo2]
  | succ rem ih =>
    intro att
    cases hf : f att with
    | ok r => simp [embedRetryGo2, hf]
    | error e =>
      by_cases hc : (e.status == some 429 && decide (att < mR - 1)) = true
      · have := ih (att + 1)
        simp [embedRetryGo2, hf, hc]
        omega
      · rw [Bool.not_eq_true] at hc
        simp [embedRetryGo2, hf, hc]

theorem embedRetryGo1_delays_exp (f : Nat → Except HttpErr BatchOut) (mR dI : Nat) :
    ∀ (rem att : Nat), ∃ k,
      (embedRetryGo1 f mR dI rem att).delays
        = (List.range k).map (fun i => dI * 2 ^ (att + i)) := by
  intro rem
  induction rem with
  | zero => intro att; exact ⟨0, by simp [embedRetryGo1]⟩
  | succ rem ih =>
    intro att
    cases hf : f att with
    | ok r => exact ⟨0, by simp [embedRetryGo1, hf]⟩
    | error e =>
      by_cases hc : (e.status == some 429 && decide (att < mR - 1)) = true
      · rcases ih (att + 1) with ⟨k, hk⟩
        refine ⟨k + 1, ?_⟩
        have harith : ∀ i, att + 1 + i = att + (i + 1) := fun i => by omega
        simp [embedRetryGo1, hf, hc, hk, List.range_succ_eq_map,
          Function.comp_def, harith]
      · rw [Bool.not_eq_true] at hc
        exact ⟨0, by simp [embedRetryGo1, hf, hc]⟩

theorem embedRetryGo2_delays_exp (f : Nat → Except HttpErr BatchOut) (mR dI : Nat) :
    ∀ (rem att : Nat), ∃ k,
      (embedRetryGo2 f mR dI rem att).delays
        = (List.range k).map (fun i => dI * 2 ^ (att + i)) := by
  intro rem
  induction rem with
  | zero => intro att; exact ⟨0, by simp [embedRetryGo2]⟩
  | succ rem ih =>
    intro att
    cases hf : f att with
    | ok r => exact ⟨0, by simp [embedRetryGo2, hf]⟩
    | error e =>
      by_cases hc : (e.status == some 429 && decide (att < mR - 1)) = true
      · rcases ih (att + 1) with ⟨k, hk⟩
        refine ⟨k + 1, ?_⟩
        have harith : ∀ i, att + 1 + i = att + (i + 1) := fun i => by omega
        simp [embedRetryGo2, hf, hc, hk, List.range_succ_eq_map,
          Function.comp_def, harith]
      · rw [Bool.not_eq_true] at hc
        exact ⟨0, by simp [embedRetryGo2, hf, hc]⟩

/- ===== Claim theorems: C3 ===== -/

/-- C3 (amended): the retry helpers of both copies retry only on HTTP 429,
with exponentially growing delay delayInit * 2 ^ attempt and the fixed
attempt cap MAX_RETRIES; every non-429 failure, including 5xx responses,
is immediately fatal for the batch; a single 429 followed by success
yields the successful result after exactly one retry (two requests) with
no error surfaced. -/
theorem retry_only_on_429 (f : Nat → Except HttpErr BatchOut) (mR dI : Nat)
    (r : BatchOut) (e : HttpErr) :
    (2 ≤ mR → f 0 = .error ⟨some 429⟩ → f 1 = .ok r →
      embedBatchWithRetries1 f mR dI = ⟨.ok r, 2, [dI]⟩ ∧
      embedBatchWithRetries2 f mR dI = ⟨.ok r, 2, [dI]⟩) ∧
    (1 ≤ mR → f 0 = .error e → ¬ e.status = some 429 →
      embedBatchWithRetries1 f mR dI = ⟨.error (.http e), 1, []⟩ ∧
      embedBatchWithRetries2 f mR dI = ⟨.error (.http e), 1, []⟩) ∧
    ((embedBatchWithRetries1 f mR dI).attempts ≤ mR ∧
      (embedBatchWithRetries2 f mR dI).attempts ≤ mR) ∧
    ((∃ k, (embedBatchWithRetries1 f mR dI).delays
        = (List.range k).map (fun i => dI * 2 ^ i)) ∧
      (∃ k, (embedBatchWithRetries2 f mR dI).delays
        = (List.range k).map (fun i => dI * 2 ^ i))) := by
  refine ⟨?_, ?_, ?_, ?_⟩
  · intro hmr hf0 hf1
    obtain ⟨m, rfl⟩ : ∃ m, mR = m + 2 := ⟨mR - 2, by omega⟩
    constructor
    · simp [embedBatchWithRetries1, embedRetryGo1, hf0, hf1,
        Nat.lt_of_lt_of_le Nat.zero_lt_one (by omega : 1 ≤ m + 2 - 1)]
    · simp [embedBatchWithRetries2, embedRetryGo2, hf0, hf1,
        Nat.lt_of_lt_of_le Nat.zero_lt_one (by omega : 1 ≤ m + 2 - 1)]
  · intro hmr hf0 hne
    obtain ⟨m, rfl⟩ : ∃ m, mR = m + 1 := ⟨mR - 1, by omega⟩
    have hb : (e.status == some 429) = false := by
      simpa using hne
    constructor
    · simp [embedBatchWithRetries1, embedRetryGo1, hf0, hb]
    · simp [embedBatchWithRetries2, embedRetryGo2, hf0, hb]
  · constructor
    · simpa using embedRetryGo1_attempts_le f mR dI mR 0
    · simpa using embedRetryGo2_attempts_le f mR dI mR 0
  · constructor
    · simpa using embedRetryGo1_delays_exp f mR dI mR 0
    · simpa using embedRetryGo2_delays_exp f mR dI mR 0

/-- C3 witness: with a concrete response sequence that returns 429 once
and then succeeds, both retry helpers succeed after exactly one retry
with the single delay 500. -/
theorem retry_only_on_429_witness :
    embedBatchWithRetries1
        (fun n => if n == 0 then .error ⟨some 429⟩ else .ok ⟨[[1]], 1, 1⟩) 3 500
      = ⟨.ok ⟨[[1]], 1, 1⟩, 2, [500]⟩ ∧
    embedBatchWithRetries2
        (fun n => if n == 0 then .error ⟨some 429⟩ else .ok ⟨[[1]], 1, 1⟩) 3 500
      = ⟨.ok ⟨[[1]], 1, 1⟩, 2, [500]⟩ :=
  (retry_only_on_429
    (fun n => if n == 0 then .error ⟨some 429⟩ else .ok ⟨[[1]], 1, 1⟩) 3 500
    ⟨[[1]], 1, 1⟩ ⟨some 500⟩).1 (by decide) rfl rfl

/-- C3 counterexample: a server-side 500 response followed by a sequence
that would succeed is not retried: the helper surfaces the 500 error after
a single request, falsifying the claimed retry on 5xx-class responses. -/
theorem retry_5xx_counterexample :
    (embedBatchWithRetries1
        (fun n => if n == 0 then .error ⟨some 500⟩ else .ok ⟨[[1]], 1, 1⟩) 3 500).result
      ≠ .ok ⟨[[1]], 1, 1⟩ ∧
    (embedBatchWithRetries1
        (fun n => if n == 0 then .error ⟨some 500⟩ else .ok ⟨[[1]], 1, 1⟩) 3 500).attempts
      = 1 := by
  refine ⟨by decide, by decide⟩

/- ===== Helper lemmas: batch construction ===== -/

theorem collectBatch_rest_length (mi mb : Nat) :
    ∀ (l : List String) (acc : Nat), (collectBatch mi mb l acc).2.length ≤ l.length := by
  intro l
  induction l with
  | nil => intro acc; simp [collectBatch]
  | cons t ts ih =>
    intro acc
    by_cases h1 : mi < itemTokens t
    · simp only [collectBatch, h1, if_pos]
      exact le_trans (ih acc) (by simp)
    · by_cases h2 : acc + itemTokens t ≤ mb
      · simp only [collectBatch, h1, if_neg, if_pos, h2, ite_false, ite_true]
        exact le_trans (ih (acc + itemTokens t)) (by simp)
      · simp [collectBatch, h1, h2]

theorem collectBatch_progress (mi mb : Nat) (h : mi ≤ mb) (t : String) (ts : List String) :
    (collectBatch mi mb (t :: ts) 0).2.length ≤ ts.length := by
  by_cases h1 : mi < itemTokens t
  · simp only [collectBatch, h1, if_pos]
    exact collectBatch_rest_length mi mb ts 0
  · have h2 : 0 + itemTokens t ≤ mb := by omega
    simp only [collectBatch, h1, if_neg, if_pos, h2, ite_false, ite_true]
    exact collectBatch_rest_length mi mb ts (0 + itemTokens t)

theorem collectBatch_budget (mi mb : Nat) :
    ∀ (l : List String) (acc : Nat), acc ≤ mb →
      acc + tokenSum (collectBatch mi mb l acc).1 ≤ mb := by
  intro l
  induction l with
  | nil => intro acc hacc; simpa [collectBatch, tokenSum] using hacc
  | cons t ts ih =>
    intro acc hacc
    by_cases h1 : mi < itemTokens t
    · simp only [collectBatch, h1, if_pos]
      exact ih acc hacc
    · by_cases h2 : acc + itemTokens t ≤ mb
      · simp only [collectBatch, h1, if_neg, if_pos, h2, ite_false, ite_true]
        have := ih (acc + itemTokens t) h2
        simp only [tokenSum, List.map_cons, List.sum_cons] at this ⊢
        omega
      · simpa [collectBatch, h1, h2, tokenSum] using hacc

theorem collectBatch_filter (mi mb : Nat) :
    ∀ (l : List String) (acc : Nat),
      (collectBatch mi mb l acc).1
          ++ (collectBatch mi mb l acc).2.filter (fun t => decide (itemTokens t ≤ mi))
        = l.filter (fun t => decide (itemTokens t ≤ mi)) := by
  intro l
  induction l with
  | nil => intro acc; simp [collectBatch]
  | cons t ts ih =>
    intro acc
    by_cases h1 : mi < itemTokens t
    · have hover : ¬ itemTokens t ≤ mi := by omega
      simp only [collectBatch, h1, if_pos]
      rw [ih acc]
      simp [List.filter_cons, hover]
    · have hok : itemTokens t ≤ mi := by omega
      by_cases h2 : acc + itemTokens t ≤ mb
      · simp only [collectBatch, h1, if_neg, if_pos, h2, ite_false, ite_true]
        simp only [List.cons_append]
        rw [ih (acc + itemTokens t)]
        simp [List.filter_cons, hok]
      · simp [collectBatch, h1, h2]

theorem batchPlan_spec (mi mb : Nat) (h : mi ≤ mb) :
    ∀ (fuel : Nat) (l : List String), l.length ≤ fuel →
      ∃ bs, batchPlan mi mb fuel l = some bs ∧
        (∀ b ∈ bs, tokenSum b ≤ mb) ∧
        bs.flatten = l.filter (fun t => decide (itemTokens t ≤ mi)) := by
  intro fuel
  induction fuel with
  | zero =>
    intro l hl
    have hnil : l = [] := List.length_eq_zero.mp (Nat.le_zero.mp hl)
    subst hnil
    exact ⟨[], rfl, by simp, by simp⟩
  | succ fuel ih =>
    intro l hl
    cases l with
    | nil => exact ⟨[], rfl, by simp, by simp⟩
    | cons t ts =>
      have hrest : (collectBatch mi mb (t :: ts) 0).2.length ≤ fuel :=
        le_trans (collectBatch_progress mi mb h t ts) (by simpa using hl)
      obtain ⟨bs, hbs, hbudget, hjoin⟩ := ih _ hrest
      refine ⟨if (collectBatch mi mb (t :: ts) 0).1.isEmpty then bs
        else (collectBatch mi mb (t :: ts) 0).1 :: bs, ?_, ?_, ?_⟩
      · simp only [batchPlan, hbs]
      · intro b hb
        by_cases he : (collectBatch mi mb (t :: ts) 0).1.isEmpty
        · rw [if_pos he] at hb
          exact hbudget b hb
        · rw [if_neg he] at hb
          rcases List.mem_cons.mp hb with hb' | hb'
          · subst hb'
            simpa using collectBatch_budget mi mb (t :: ts) 0 (Nat.zero_le mb)
          · exact hbudget b hb'
      · by_cases he : (collectBatch mi mb (t :: ts) 0).1.isEmpty
        · rw [if_pos he]
          have hempty : (collectBatch mi mb (t :: ts) 0).1 = [] :=
            List.isEmpty_iff.mp he
          have := collectBatch_filter mi mb (t :: ts) 0
          rw [hempty, List.nil_append] at this
          rw [hjoin, this]
        · rw [if_neg he]
          simp only [List.flatten_cons]
          rw [hjoin, collectBatch_filter mi mb (t :: ts) 0]

theorem createLoop1_ok (mi mb : Nat) (h : mi ≤ mb) (enc : String → List ℚ) :
    ∀ (fuel : Nat) (l : List String) (acc : BatchOut), l.length ≤ fuel →
      createLoop1 (fun b => .ok ⟨b.map enc, 0, 0⟩) mi mb fuel l acc
        = some (.ok ⟨acc.embeddings
              ++ (l.filter (fun t => decide (itemTokens t ≤ mi))).map enc,
            acc.promptTokens, acc.totalTokens⟩) := by
  intro fuel
  induction fuel with
  | zero =>
    intro l acc hl
    have hnil : l = [] := List.length_eq_zero.mp (Nat.le_zero.mp hl)
    subst hnil
    simp [createLoop1]
  | succ fuel ih =>
    intro l acc hl
    cases l with
    | nil => simp [createLoop1]
    | cons t ts =>
      have hrest : (collectBatch mi mb (t :: ts) 0).2.length ≤ fuel :=
        le_trans (collectBatch_progress mi mb h t ts) (by simpa using hl)
      by_cases he : (collectBatch mi mb (t :: ts) 0).1.isEmpty
      · have hempty : (collectBatch mi mb (t :: ts) 0).1 = [] :=
          List.isEmpty_iff.mp he
        have hfil := collectBatch_filter mi mb (t :: ts) 0
        rw [hempty, List.nil_append] at hfil
        simp only [createLoop1, he, if_pos]
        rw [ih _ acc hrest, hfil]
      · simp only [createLoop1, he, if_neg, Bool.not_eq_true, ite_false]
        rw [ih _ _ hrest]
        have hfil := collectBatch_filter mi mb (t :: ts) 0
        simp only [Nat.add_zero]
        rw [List.append_assoc, ← List.map_append, hfil]

/- ===== Claim theorems: C4 ===== -/

/-- C4: createEmbeddings partitions the input into sub-batches whose token
estimate sum never exceeds the per-batch budget; items over the per-item
ceiling are excluded from every batch and the call does not fail because
of them; every non-oversized item is embedded exactly once, in order (the
concatenation of the batches is exactly the filtered input), and the while
loop terminates within length-many iterations whenever the per-item
ceiling does not exceed the per-batch budget. -/
theorem createEmbeddings_batching (mi mb : Nat) (texts : List String)
    (enc : String → List ℚ) (h : mi ≤ mb) :
    ∃ bs, batchPlan mi mb texts.length texts = some bs ∧
      (∀ b ∈ bs, tokenSum b ≤ mb) ∧
      bs.flatten = texts.filter (fun t => decide (itemTokens t ≤ mi)) ∧
      createEmbeddings1 (fun b _ => .ok ⟨b.map enc, 0, 0⟩) 3 500 mi mb texts
        = some (.ok ⟨(texts.filter (fun t => decide (itemTokens t ≤ mi))).map enc, 0, 0⟩) := by
  obtain ⟨bs, h1, h2, h3⟩ := batchPlan_spec mi mb h texts.length texts le_rfl
  refine ⟨bs, h1, h2, h3, ?_⟩
  have hembed : (fun b => (embedBatchWithRetries1
        ((fun (b : List String) (_ : Nat) =>
          (.ok ⟨b.map enc, 0, 0⟩ : Except HttpErr BatchOut)) b) 3 500).result)
      = fun (b : List String) => (.ok ⟨b.map enc, 0, 0⟩ : Except EmbedError BatchOut) :=
    funext fun b => rfl
  unfold createEmbeddings1
  rw [hembed, createLoop1_ok mi mb h enc texts.length texts ⟨[], 0, 0⟩ le_rfl]
  simp

/-- C4 witness: the batching property instantiated at the real constants
8191 and 100000 on a concrete input. -/
theorem createEmbeddings_batching_witness :
    8191 ≤ 100000 ∧
    ∃ bs, batchPlan 8191 100000 (["ab", "xyz"] : List String).length ["ab", "xyz"] = some bs ∧
      (∀ b ∈ bs, tokenSum b ≤ 100000) ∧
      bs.flatten = (["ab", "xyz"] : List String).filter (fun t => decide (itemTokens t ≤ 8191)) ∧
      createEmbeddings1 (fun b _ => .ok ⟨b.map (fun _ => [1]), 0, 0⟩) 3 500 8191 100000
          ["ab", "xyz"]
        = some (.ok ⟨((["ab", "xyz"] : List String).filter
            (fun t => decide (itemTokens t ≤ 8191))).map (fun _ => [1]), 0, 0⟩) :=
  ⟨by decide, createEmbeddings_batching 8191 100000 ["ab", "xyz"] (fun _ => [1]) (by decide)⟩

/- ===== Helper lemmas: first-attempt success and loop equivalence ===== -/

theorem embedBatchWithRetries1_ok_first (f : Nat → Except HttpErr BatchOut)
    (mR dI : Nat) (r : BatchOut) (hmR : 0 < mR) (hf : f 0 = .ok r) :
    embedBatchWithRetries1 f mR dI = ⟨.ok r, 1, []⟩ := by
  obtain ⟨m, rfl⟩ : ∃ m, mR = m + 1 := ⟨mR - 1, by omega⟩
  simp [embedBatchWithRetries1, embedRetryGo1, hf]

theorem embedBatchWithRetries2_ok_first (f : Nat → Except HttpErr BatchOut)
    (mR dI : Nat) (r : BatchOut) (hmR : 0 < mR) (hf : f 0 = .ok r) :
    embedBatchWithRetries2 f mR dI = ⟨.ok r, 1, []⟩ := by
  obtain ⟨m, rfl⟩ : ∃ m, mR = m + 1 := ⟨mR - 1, by omega⟩
  simp [embedBatchWithRetries2, embedRetryGo2, hf]

theorem createLoop_eq_of_ok (responses : List String → Nat → Except HttpErr BatchOut)
    (mR dI mi mb : Nat) (hmR : 0 < mR)
    (hresp : ∀ b, ∃ r, responses b 0 = .ok r) (h : mi ≤ mb) :
    ∀ (fuel : Nat) (l : List String) (acc : BatchOut), l.length ≤ fuel →
      createLoop1 (fun b => (embedBatchWithRetries1 (responses b) mR dI).result)
          mi mb fuel l acc
        = createLoop2 (fun b => (embedBatchWithRetries2 (responses b) mR dI).result)
          mi mb fuel l acc ∧
      ∃ out, createLoop1 (fun b => (embedBatchWithRetries1 (responses b) mR dI).result)
          mi mb fuel l acc = some (.ok out) := by
  intro fuel
  induction fuel with
  | zero =>
    intro l acc hl
    have hnil : l = [] := List.length_eq_zero.mp (Nat.le_zero.mp hl)
    subst hnil
    exact ⟨rfl, acc, rfl⟩
  | succ fuel ih =>
    intro l acc hl
    cases l with
    | nil => exact ⟨rfl, acc, rfl⟩
    | cons t ts =>
      have hrest : (collectBatch mi mb (t :: ts) 0).2.length ≤ fuel :=
        le_trans (collectBatch_progress mi mb h t ts) (by simpa using hl)
      by_cases he : (collectBatch mi mb (t :: ts) 0).1.isEmpty
      · have h1 := ih (collectBatch mi mb (t :: ts) 0).2 acc hrest
        constructor
        · simp only [createLoop1, createLoop2, he, if_pos]
          exact h1.1
        · rcases h1.2 with ⟨out, hout⟩
          refine ⟨out, ?_⟩
          simp only [createLoop1, he, if_pos]
          exact hout
      · obtain ⟨r, hr⟩ := hresp (collectBatch mi mb (t :: ts) 0).1
        have hr1 := embedBatchWithRetries1_ok_first
          (responses (collectBatch mi mb (t :: ts) 0).1) mR dI r hmR hr
        have hr2 := embedBatchWithRetries2_ok_first
          (responses (collectBatch mi mb (t :: ts) 0).1) mR dI r hmR hr
        have h1 := ih (collectBatch mi mb (t :: ts) 0).2
          ⟨acc.embeddings ++ r.embeddings, acc.promptTokens + r.promptTokens,
            acc.totalTokens + r.totalTokens⟩ hrest
        constructor
        · simp only [createLoop1, createLoop2, he, if_neg, Bool.not_eq_true,
            ite_false, hr1, hr2]
          exact h1.1
        · rcases h1.2 with ⟨out, hout⟩
          refine ⟨out, ?_⟩
          simp only [createLoop1, he, if_neg, Bool.not_eq_true, ite_false, hr1]
          exact hout

/- ===== Claim theorems: C9 ===== -/

/-- C9: when no batch request fails (every batch succeeds on its first
attempt) and at least one attempt is allowed, the two copies of
createEmbeddings return identical results: the same embeddings in the
same order and the same usage totals, both successfully. -/
theorem createEmbeddings_copies_equivalent
    (responses : List String → Nat → Except HttpErr BatchOut)
    (mR dI mi mb : Nat) (texts : List String) (hmR : 0 < mR)
    (hresp : ∀ b, ∃ r, responses b 0 = .ok r) (h : mi ≤ mb) :
    createEmbeddings1 responses mR dI mi mb texts
      = createEmbeddings2 responses mR dI mi mb texts ∧
    ∃ out, createEmbeddings1 responses mR dI mi mb texts = some (.ok out) := by
  unfold createEmbeddings1 createEmbeddings2
  exact createLoop_eq_of_ok responses mR dI mi mb hmR hresp h texts.length texts ⟨[], 0, 0⟩ le_rfl

/-- C9 witness: both copies agree and succeed on a concrete input with a
concrete always-successful response oracle. -/
theorem createEmbeddings_copies_equivalent_witness :
    createEmbeddings1 (fun _ _ => .ok ⟨[[1]], 2, 3⟩) 3 500 8191 100000 ["hello"]
      = createEmbeddings2 (fun _ _ => .ok ⟨[[1]], 2, 3⟩) 3 500 8191 100000 ["hello"] ∧
    ∃ out, createEmbeddings1 (fun _ _ => .ok ⟨[[1]], 2, 3⟩) 3 500 8191 100000 ["hello"]
      = some (.ok out) :=
  createEmbeddings_copies_equivalent (fun _ _ => .ok ⟨[[1]], 2, 3⟩) 3 500 8191 100000
    ["hello"] (by decide) (fun _ => ⟨⟨[[1]], 2, 3⟩, rfl⟩) (by decide)

/- ===== Helper lemmas: FastEmbed oversize preservation ===== -/

theorem itemTokens_le_append (qp t : String) : itemTokens t ≤ itemTokens (qp ++ t) := by
  unfold itemTokens
  have : t.length ≤ (qp ++ t).length := by
    rw [String.length_append]
    omega
  exact Nat.div_le_div_right (by omega)

theorem processTexts_oversized (qp : Option String) (mi : Nat) (texts : List String)
    (hover : ∀ t ∈ texts, mi < itemTokens t) :
    ∀ u ∈ processTexts qp mi texts, mi < itemTokens u := by
  intro u hu
  cases qp with
  | none => exact hover u (by simpa [processTexts] using hu)
  | some q =>
    by_cases hq : q == ""
    · simp only [processTexts, hq, if_pos] at hu
      exact hover u hu
    · simp only [processTexts, hq, if_neg, Bool.not_eq_true, ite_false] at hu
      rcases List.mem_map.mp hu with ⟨t, ht, hut⟩
      have hot := hover t ht
      by_cases hs : strStartsWith t q
      · rw [if_pos hs] at hut
        subst hut; exact hot
      · rw [if_neg hs] at hut
        by_cases hbig : mi < itemTokens (q ++ t)
        · rw [if_pos hbig] at hut
          subst hut; exact hot
        · have := itemTokens_le_append q t
          omega

/- ===== Claim theorems: C10 ===== -/

/-- C10: on a non-empty input list all of whose texts exceed the per-item
token ceiling, FastEmbedEmbedder.createEmbeddings throws (its no-valid-
texts error, wrapped by the outer catch) instead of returning an empty
embedding list. -/
theorem fastembed_all_oversized
    (doEmbed : List String → Except FastEmbedError (List (List ℚ)))
    (maxPerCall mi : Nat) (qp : Option String) (texts : List String)
    (_hne : texts ≠ []) (hover : ∀ t ∈ texts, mi < itemTokens t) :
    fastEmbedCreate doEmbed maxPerCall mi qp texts
      = some (.error (.embeddingFailed .noValidTexts)) := by
  have hval : (processTexts qp mi texts).filter (fun t => !(decide (mi < itemTokens t))) = [] := by
    rw [List.filter_eq_nil_iff]
    intro u hu
    simp [processTexts_oversized qp mi texts hover u hu]
  unfold fastEmbedCreate
  simp [hval]

/-- C10 witness: one oversized text under a zero ceiling produces the
wrapped no-valid-texts error, not an empty result. -/
theorem fastembed_all_oversized_witness :
    (["aaaa"] : List String) ≠ [] ∧
    (∀ t ∈ (["aaaa"] : List String), 0 < itemTokens t) ∧
    fastEmbedCreate (fun _ => .ok []) 256 0 none ["aaaa"]
      = some (.error (.embeddingFailed .noValidTexts)) :=
  ⟨by decide, by decide,
    fastembed_all_oversized (fun _ => .ok []) 256 0 none ["aaaa"] (by decide) (by decide)⟩

/- ===== Claim theorems: C6 ===== -/

/-- C6 (amended): the two cited validators classify differently. The LM
Studio validateConfiguration classifies every failing probe into a
user-actionable category, in the priority order of the source checks:
connection-refused (and, when no 404 marker interferes, fetch-failed)
errors are service-unreachable; HTTP 404 (status or message) is
model-not-found; ENOTFOUND is host-unresolvable; anything not matching a
trigger is a generic configuration error; a probe returning at least one
embedding is valid. The FastEmbed validateConfiguration performs none of
those classifications: only failures whose message marks the model as not
found or not supported are classified (as model-not-supported), every
other failure — including connection-refused, ENOTFOUND and HTTP 404 — is
a generic configuration error, an unavailable model is reported as not
supported before any probe, and a probe whose first embedding is
non-empty is valid. -/
theorem validateConfiguration_classification (data : List (List ℚ)) (e : ErrInfo)
    (fst : List ℚ) (rest : List (List ℚ)) (pr : ProbeOutcome) :
    (data ≠ [] → validateConfiguration (.success data) = ⟨true, none⟩) ∧
    ((strContains e.message "ECONNREFUSED" || (e.code == some "ECONNREFUSED")) = true →
      validateConfiguration (.failure e) = ⟨false, some .serviceNotRunning⟩) ∧
    (strContains e.message "fetch failed" = true →
      ((e.status == some 404) || strContains e.message "404") = false →
      validateConfiguration (.failure e) = ⟨false, some .serviceNotRunning⟩) ∧
    (((e.status == some 404) || strContains e.message "404") = true →
      (strContains e.message "ECONNREFUSED" || (e.code == some "ECONNREFUSED")) = false →
      validateConfiguration (.failure e) = ⟨false, some .modelNotFound⟩) ∧
    (((e.code == some "ENOTFOUND") || strContains e.message "ENOTFOUND") = true →
      (strContains e.message "ECONNREFUSED" || (e.code == some "ECONNREFUSED")) = false →
      ((e.status == some 404) || strContains e.message "404") = false →
      strContains e.message "fetch failed" = false →
      validateConfiguration (.failure e) = ⟨false, some .hostNotFound⟩) ∧
    ((strContains e.message "ECONNREFUSED" || (e.code == some "ECONNREFUSED")) = false →
      ((e.status == some 404) || strContains e.message "404") = false →
      strContains e.message "fetch failed" = false →
      ((e.code == some "ENOTFOUND") || strContains e.message "ENOTFOUND") = false →
      validateConfiguration (.failure e) = ⟨false, some .generic⟩) ∧
    ((strContains e.message "model not found"
        || strContains e.message "Model not supported") = true →
      fastEmbedValidateConfiguration true (.failure e)
        = ⟨false, some .modelNotSupported⟩) ∧
    ((strContains e.message "model not found"
        || strContains e.message "Model not supported") = false →
      fastEmbedValidateConfiguration true (.failure e) = ⟨false, some .generic⟩) ∧
    (fst ≠ [] →
      fastEmbedValidateConfiguration true (.success (fst :: rest)) = ⟨true, none⟩) ∧
    (fastEmbedValidateConfiguration false pr = ⟨false, some .modelNotSupported⟩) := by
  refine ⟨?_, ?_, ?_, ?_, ?_, ?_, ?_, ?_, ?_, ?_⟩
  · intro hne
    rcases List.exists_cons_of_ne_nil hne with ⟨d, ds, rfl⟩
    simp [validateConfiguration, withValidationErrorHandling]
  · intro h1
    simp [validateConfiguration, withValidationErrorHandling, lmstudioProbeClassify, h1]
  · intro hff h404
    by_cases h1 : (strContains e.message "ECONNREFUSED" || (e.code == some "ECONNREFUSED")) = true
    · simp [validateConfiguration, withValidationErrorHandling, lmstudioProbeClassify, h1]
    · rw [Bool.not_eq_true] at h1
      simp [validateConfiguration, withValidationErrorHandling, lmstudioProbeClassify,
        lmstudioBeforeStandard, h1, h404, hff]
  · intro h404 h1
    simp [validateConfiguration, withValidationErrorHandling, lmstudioProbeClassify, h1, h404]
  · intro hhost h1 h404 hff
    have h1a : strContains e.message "ECONNREFUSED" = false := by
      simp only [Bool.or_eq_false_iff] at h1
      exact h1.1
    have h1b : (e.code == some "ECONNREFUSED") = false := by
      simp only [Bool.or_eq_false_iff] at h1
      exact h1.2
    simp [validateConfiguration, withValidationErrorHandling, lmstudioProbeClassify,
      lmstudioBeforeStandard, h1, h404, hff, h1a, h1b, hhost]
  · intro h1 h404 hff hhost
    have h1a : strContains e.message "ECONNREFUSED" = false := by
      simp only [Bool.or_eq_false_iff] at h1
      exact h1.1
    have h1b : (e.code == some "ECONNREFUSED") = false := by
      simp only [Bool.or_eq_false_iff] at h1
      exact h1.2
    simp [validateConfiguration, withValidationErrorHandling, lmstudioProbeClassify,
      lmstudioBeforeStandard, h1, h404, hff, h1a, h1b, hhost]
  · intro hm
    simp [fastEmbedValidateConfiguration, withValidationErrorHandling,
      fastEmbedBeforeStandard, hm]
  · intro hm
    simp [fastEmbedValidateConfiguration, withValidationErrorHandling,
      fastEmbedBeforeStandard, hm]
  · intro hfst
    rcases List.exists_cons_of_ne_nil hfst with ⟨x, xs, rfl⟩
    simp [fastEmbedValidateConfiguration, withValidationErrorHandling]
  · simp [fastEmbedValidateConfiguration, withValidationErrorHandling]

/-- C6 witness: one concrete probe outcome per category of each
validator. -/
theorem validateConfiguration_classification_witness :
    validateConfiguration (.success [[1]]) = ⟨true, none⟩ ∧
    validateConfiguration (.failure ⟨none, some "ECONNREFUSED",
        "connect ECONNREFUSED 127.0.0.1:1234"⟩) = ⟨false, some .serviceNotRunning⟩ ∧
    validateConfiguration (.failure ⟨some 404, none, "Not Found"⟩)
      = ⟨false, some .modelNotFound⟩ ∧
    validateConfiguration (.failure ⟨none, some "ENOTFOUND",
        "getaddrinfo ENOTFOUND myhost"⟩) = ⟨false, some .hostNotFound⟩ ∧
    validateConfiguration (.failure ⟨some 500, none, "boom"⟩)
      = ⟨false, some .generic⟩ ∧
    fastEmbedValidateConfiguration true (.failure ⟨none, none,
        "Error: model not found in registry"⟩) = ⟨false, some .modelNotSupported⟩ ∧
    fastEmbedValidateConfiguration true (.failure ⟨some 500, none, "boom"⟩)
      = ⟨false, some .generic⟩ ∧
    fastEmbedValidateConfiguration true (.success [[1]]) = ⟨true, none⟩ ∧
    fastEmbedValidateConfiguration false (.success [[1]])
      = ⟨false, some .modelNotSupported⟩ := by
  refine ⟨?_, ?_, ?_, ?_, ?_, ?_, ?_, ?_, ?_⟩
  · exact (validateConfiguration_classification [[1]] ⟨none, none, ""⟩
      [] [] (.success [])).1 (by decide)
  · exact (validateConfiguration_classification [] ⟨none, some "ECONNREFUSED",
      "connect ECONNREFUSED 127.0.0.1:1234"⟩ [] [] (.success [])).2.1 (by decide)
  · exact (validateConfiguration_classification [] ⟨some 404, none, "Not Found"⟩
      [] [] (.success [])).2.2.2.1 (by decide) (by decide)
  · exact (validateConfiguration_classification [] ⟨none, some "ENOTFOUND",
      "getaddrinfo ENOTFOUND myhost"⟩ [] [] (.success [])).2.2.2.2.1
      (by decide) (by decide) (by decide) (by decide)
  · exact (validateConfiguration_classification [] ⟨some 500, none, "boom"⟩
      [] [] (.success [])).2.2.2.2.2.1
      (by decide) (by decide) (by decide) (by decide)
  · exact (validateConfiguration_classification [] ⟨none, none,
      "Error: model not found in registry"⟩ [] [] (.success [])).2.2.2.2.2.2.1 (by decide)
  · exact (validateConfiguration_classification [] ⟨some 500, none, "boom"⟩
      [] [] (.success [])).2.2.2.2.2.2.2.1 (by decide)
  · exact (validateConfiguration_classification [] ⟨none, none, ""⟩
      [1] [] (.success [])).2.2.2.2.2.2.2.2.1 (by decide)
  · exact (validateConfiguration_classification [] ⟨none, none, ""⟩
      [] [] (.success [[1]])).2.2.2.2.2.2.2.2.2

/-- C6 counterexample: the FastEmbed validateConfiguration cited by the
claim classifies a connection-refused probe failure and an HTTP 404 probe
failure as generic configuration errors, not as service-unreachable or
model-not-found. -/
theorem fastembed_validate_counterexample :
    fastEmbedValidateConfiguration true (.failure ⟨none, some "ECONNREFUSED",
        "connect ECONNREFUSED 127.0.0.1:1234"⟩) = ⟨false, some .generic⟩ ∧
    fastEmbedValidateConfiguration true (.failure ⟨none, some "ECONNREFUSED",
        "connect ECONNREFUSED 127.0.0.1:1234"⟩) ≠ ⟨false, some .serviceNotRunning⟩ ∧
    fastEmbedValidateConfiguration true (.failure ⟨some 404, none, "Request failed"⟩)
      = ⟨false, some .generic⟩ ∧
    fastEmbedValidateConfiguration true (.failure ⟨some 404, none, "Request failed"⟩)
      ≠ ⟨false, some .modelNotFound⟩ := by
  refine ⟨by decide, by decide, by decide, by decide⟩

end RooCode
